import Mathlib

/-!
Verification of the similarity / retrieval-metric module `statistics.py` of the
Locality-Sensitive-Hashing repository.

Model conventions:
* A document vector is a `List ℕ` (one column of the incidence matrix: the
  incidence matrix of the program holds non-negative integer entries, commonly
  0/1 bits).  The matrix itself is `Mat := ℕ → List ℕ`, a map from a document
  id to its column.
* Python's bitwise `&` / `|` on integer entries are `Nat.land` / `Nat.lor`.
* Scores are modelled exactly: `jaccard` yields a rational, `euclid` and
  `cosine` yield reals built with `Real.sqrt` (the `** 0.5` of the source).
* Python faults are modelled with `Except PyError`: the unbound `sim_fun`
  reference on an unrecognized selector is `unboundLocalError`, integer
  division by zero is `zeroDivisionError`.
* Python's `sorted` (a stable sort, optionally with `reverse=True`) is
  modelled by `List.insertionSort`, which is also stable and sorts wrt the
  given total preorder.
* List comprehensions with a condition are modelled by the propositional
  filter `pfilter`.
-/

open Classical

namespace LSHStat

/-- The incidence matrix: document id ↦ column vector of numeric entries. -/
def Mat : Type := ℕ → List ℕ

/-- Model of `jaccard(x, a, incidence_matrix)`:
`sum(x & a) / sum(x | a)` after replacing `x`, `a` by the matrix columns. -/
def jaccard (x a : ℕ) (m : Mat) : ℚ :=
  ((List.zipWith Nat.land (m x) (m a)).sum : ℚ) /
    ((List.zipWith Nat.lor (m x) (m a)).sum : ℚ)

/-- The radicand `np.sum(a**2 - x**2)` of `euclid` (elementwise on columns). -/
def euclidRad (x a : ℕ) (m : Mat) : ℤ :=
  (List.zipWith (fun ae xe : ℕ => (ae : ℤ) ^ 2 - (xe : ℤ) ^ 2) (m a) (m x)).sum

/-- Model of `euclid(x, a, incidence_matrix)`: `np.sum(a**2 - x**2) ** 0.5`. -/
noncomputable def euclid (x a : ℕ) (m : Mat) : ℝ :=
  Real.sqrt ((euclidRad x a m : ℤ) : ℝ)

/-- Value of `np.dot(a, x)` on the two columns. -/
def dotProd (x a : ℕ) (m : Mat) : ℕ :=
  (List.zipWith (· * ·) (m a) (m x)).sum

/-- Value of `np.sum(v**2)` for a column `v`. -/
def sumSq (v : List ℕ) : ℕ := (v.map (· ^ 2)).sum

/-- Model of `cosine(x, a, incidence_matrix)`:
`np.dot(a, x) / (np.sum(a**2) * np.sum(x**2)) ** 0.5`. -/
noncomputable def cosine (x a : ℕ) (m : Mat) : ℝ :=
  (dotProd x a m : ℝ) / Real.sqrt ((sumSq (m a) * sumSq (m x) : ℕ) : ℝ)

/-- Kinds of Python faults the module can surface. -/
inductive PyError : Type where
  | unboundLocalError
  | zeroDivisionError
  | emptyInputError
  | invalidArgument
  deriving DecidableEq

/-- Propositional filter: the model of a `[ e for v in l if cond ]`
comprehension keeping the elements themselves. -/
def pfilter {α : Type} (p : α → Prop) [DecidablePred p] : List α → List α
  | [] => []
  | a :: l => if p a then a :: pfilter p l else pfilter p l

/-- Ascending comparison on scored pairs (`sorted(..., reverse=False)`). -/
def ascLE (p q : ℕ × ℝ) : Prop := p.2 ≤ q.2

/-- Descending comparison on scored pairs (`sorted(..., reverse=True)`). -/
def descLE (p q : ℕ × ℝ) : Prop := q.2 ≤ p.2

instance : IsTotal (ℕ × ℝ) ascLE := ⟨fun p q => le_total p.2 q.2⟩

instance : IsTrans (ℕ × ℝ) ascLE := ⟨fun _ _ _ h1 h2 => le_trans h1 h2⟩

instance : IsTotal (ℕ × ℝ) descLE := ⟨fun p q => le_total q.2 p.2⟩

instance : IsTrans (ℕ × ℝ) descLE := ⟨fun _ _ _ h1 h2 => le_trans h2 h1⟩

/-- The ordering convention `compute_similarity` sorts by: ascending for
`euclid`, descending for everything else. -/
def scoreLE (sim_type : String) : (ℕ × ℝ) → (ℕ × ℝ) → Prop :=
  if sim_type = "euclid" then ascLE else descLE

/-- The `if/elif` chain of `compute_similarity` binding `sim_fun`;
`none` models the reference leaving `sim_fun` unbound. -/
noncomputable def simFun (sim_type : String) : Option (ℕ → ℕ → Mat → ℝ) :=
  if sim_type = "jaccard" then some (fun x a m => ((jaccard x a m : ℚ) : ℝ))
  else if sim_type = "euclid" then some euclid
  else if sim_type = "cosine" then some cosine
  else none

/-- The `ranked_list` accumulated by the loop of `compute_similarity`, in
candidate encounter order: every candidate equal to `x` is skipped
(`if i == x: continue`) and each remaining one is scored by `sim_fun`. -/
noncomputable def rawScores (x : ℕ) (similar_docs : List ℕ) (m : Mat)
    (f : ℕ → ℕ → Mat → ℝ) : List (ℕ × ℝ) :=
  (pfilter (fun i => i ≠ x) similar_docs).map fun i => (i, f x i m)

/-- Model of `compute_similarity(x, similar_docs, incidence_matrix, sim_type)`.
With an unrecognized selector the Python loop raises `UnboundLocalError` at
the first scored candidate; if no candidate other than `x` exists the loop
never touches `sim_fun` and the empty list is returned sorted. -/
noncomputable def compute_similarity (x : ℕ) (similar_docs : List ℕ) (m : Mat)
    (sim_type : String) : Except PyError (List (ℕ × ℝ)) :=
  match simFun sim_type with
  | some f =>
      if sim_type = "euclid" then
        .ok (List.insertionSort ascLE (rawScores x similar_docs m f))
      else
        .ok (List.insertionSort descLE (rawScores x similar_docs m f))
  | none =>
      if pfilter (fun i => i ≠ x) similar_docs = [] then .ok []
      else .error .unboundLocalError

/-- Model of `precision(threshold, output)`: `len(req)/len(output)` where `req` keeps
the pairs whose score is `>= threshold`; on an empty `output` the integer
division is by zero. -/
noncomputable def precision (threshold : ℝ) (output : List (ℕ × ℝ)) :
    Except PyError ℚ :=
  if output.length = 0 then .error .zeroDivisionError
  else .ok (((pfilter (fun p => threshold ≤ p.2) output).length : ℚ) /
    (output.length : ℚ))

/-- Result of `recall`: the reference returns the string "not defined" when
the denominator is empty, and a number otherwise. -/
inductive RecallRes : Type where
  | notDefined
  | val (q : ℚ)
  deriving DecidableEq

/-- Model of `recall(threshold, x, size, output, incidence_matrix, sim_type)`:
ranks `x` against the whole corpus `range(size)`, counts the retrieved pairs
(`req`) and the corpus pairs other than `x` (`den`) scoring `>= threshold`,
and returns `len(req)/len(den)`, or the tagged "not defined" result when
`den` is empty. -/
noncomputable def recallMetric (threshold : ℝ) (x size : ℕ) (output : List (ℕ × ℝ))
    (m : Mat) (sim_type : String) : Except PyError RecallRes :=
  match compute_similarity x (List.range size) m sim_type with
  | .error e => .error e
  | .ok docs =>
      if (pfilter (fun p => threshold ≤ p.2 ∧ p.1 ≠ x) docs).length = 0 then
        .ok .notDefined
      else
        .ok (.val (((pfilter (fun p => threshold ≤ p.2) output).length : ℚ) /
          ((pfilter (fun p => threshold ≤ p.2 ∧ p.1 ≠ x) docs).length : ℚ)))

/-- A concrete matrix: every document has the single-entry column `[1]`. -/
def mOne : Mat := fun _ => [1]

/-- A concrete matrix: document `0` has column `[1]`, all others `[2]`. -/
def mAB : Mat := fun n => if n = 0 then [1] else [2]

/-! ### Helper lemmas -/

theorem pfilter_nil {α : Type} (p : α → Prop) [DecidablePred p] :
    pfilter p [] = [] := rfl

theorem pfilter_cons {α : Type} (p : α → Prop) [DecidablePred p] (a : α)
    (l : List α) :
    pfilter p (a :: l) = if p a then a :: pfilter p l else pfilter p l := rfl

theorem mem_pfilter {α : Type} {p : α → Prop} [DecidablePred p] {a : α} :
    ∀ {l : List α}, a ∈ pfilter p l → a ∈ l ∧ p a
  | [] => by intro h; simp [pfilter_nil] at h
  | b :: l => by
    intro h
    rw [pfilter_cons] at h
    by_cases hb : p b
    · rw [if_pos hb] at h
      rcases List.mem_cons.mp h with h | h
      · exact ⟨by simp [h], h ▸ hb⟩
      · exact ⟨List.mem_cons_of_mem _ (mem_pfilter h).1, (mem_pfilter h).2⟩
    · rw [if_neg hb] at h
      exact ⟨List.mem_cons_of_mem _ (mem_pfilter h).1, (mem_pfilter h).2⟩

theorem length_pfilter_ne (x : ℕ) :
    ∀ docs : List ℕ,
      (pfilter (fun i => i ≠ x) docs).length = docs.length - docs.count x
  | [] => rfl
  | a :: l => by
    have hc := List.count_le_length x l
    have ih := length_pfilter_ne x l
    by_cases h : a = x
    · subst h
      rw [pfilter_cons, if_neg (by simp)]
      simp only [List.count_cons_self, List.length_cons]
      omega
    · rw [pfilter_cons, if_pos h]
      rw [List.count_cons_of_ne (fun hxa => h hxa.symm)]
      simp only [List.length_cons]
      omega

theorem pfilter_orderedInsert_of_mem {α : Type} (r : α → α → Prop)
    [DecidableRel r] (p : α → Prop) [DecidablePred p] (a : α)
    (ha : p a) (hall : ∀ y, p y → r a y) :
    ∀ l : List α,
      pfilter p (List.orderedInsert r a l) = a :: pfilter p l
  | [] => by rw [List.orderedInsert, pfilter_cons, if_pos ha]
  | b :: l => by
    rw [List.orderedInsert]
    by_cases hr : r a b
    · rw [if_pos hr, pfilter_cons, if_pos ha]
    · have hb : ¬ p b := fun hpb => hr (hall b hpb)
      rw [if_neg hr, pfilter_cons, if_neg hb,
        pfilter_orderedInsert_of_mem r p a ha hall l, pfilter_cons, if_neg hb]

theorem pfilter_orderedInsert_of_not_mem {α : Type} (r : α → α → Prop)
    [DecidableRel r] (p : α → Prop) [DecidablePred p] (a : α) (ha : ¬ p a) :
    ∀ l : List α, pfilter p (List.orderedInsert r a l) = pfilter p l
  | [] => by rw [List.orderedInsert, pfilter_cons, if_neg ha]
  | b :: l => by
    rw [List.orderedInsert]
    by_cases hr : r a b
    · rw [if_pos hr, pfilter_cons, if_neg ha]
    · rw [if_neg hr, pfilter_cons, pfilter_cons,
        pfilter_orderedInsert_of_not_mem r p a ha l]

/-- Stability of insertion sort: the subsequence of elements satisfying a
predicate compatible with the order (any two such elements are related both
ways) is exactly the filtered input, in input order. -/
theorem pfilter_insertionSort {α : Type} (r : α → α → Prop) [DecidableRel r]
    (p : α → Prop) [DecidablePred p]
    (hcomp : ∀ a y, p a → p y → r a y) :
    ∀ l : List α, pfilter p (List.insertionSort r l) = pfilter p l
  | [] => rfl
  | a :: l => by
    rw [List.insertionSort, pfilter_cons]
    by_cases ha : p a
    · rw [if_pos ha,
        pfilter_orderedInsert_of_mem r p a ha (fun y hy => hcomp a y ha hy),
        pfilter_insertionSort r p hcomp l]
    · rw [if_neg ha, pfilter_orderedInsert_of_not_mem r p a ha,
        pfilter_insertionSort r p hcomp l]

theorem sum_zipWith_eq_finsetSum {M : Type} [AddCommMonoid M]
    (f : ℕ → ℕ → M) :
    ∀ l₁ l₂ : List ℕ, l₁.length = l₂.length →
      (List.zipWith f l₁ l₂).sum =
        ∑ i ∈ Finset.range l₁.length, f (l₁.getD i 0) (l₂.getD i 0)
  | [], [], _ => by simp
  | [], b :: l₂, h => by simp at h
  | a :: l₁, [], h => by simp at h
  | a :: l₁, b :: l₂, h => by
    rw [List.zipWith_cons_cons, List.sum_cons,
      sum_zipWith_eq_finsetSum f l₁ l₂ (by simpa using h)]
    rw [List.length_cons, Finset.sum_range_succ']
    simp only [List.getD_cons_succ, List.getD_cons_zero]
    exact (add_comm _ _)

/-- Concrete evaluation: on `mOne` the jaccard score of documents 0 and 1
is `1/1 = 1`. -/
theorem jac_mOne : jaccard 0 1 mOne = 1 := by
  norm_num [jaccard, mOne, show Nat.land 1 1 = 1 from rfl,
    show Nat.lor 1 1 = 1 from rfl]

/-- Concrete evaluation of the ranker on candidates `[0, 1]` for query 0. -/
theorem cs_eval_01 :
    compute_similarity 0 [0, 1] mOne "jaccard" = .ok [(1, (1 : ℝ))] := by
  simp [compute_similarity, simFun, rawScores, pfilter, jac_mOne]

/-- Unfolding `recallMetric` once the full-corpus ranking is known. -/
theorem recallMetric_ok {t : ℝ} {x size : ℕ} {out docs : List (ℕ × ℝ)}
    {m : Mat} {st : String}
    (h : compute_similarity x (List.range size) m st = .ok docs) :
    recallMetric t x size out m st =
      if (pfilter (fun p => t ≤ p.2 ∧ p.1 ≠ x) docs).length = 0 then
        .ok .notDefined
      else
        .ok (.val (((pfilter (fun p => t ≤ p.2) out).length : ℚ) /
          ((pfilter (fun p => t ≤ p.2 ∧ p.1 ≠ x) docs).length : ℚ))) := by
  unfold recallMetric
  rw [h]

/-! ### Claims -/

/-- C1: `euclid(x, a)` returns exactly the square root of the sum over
coordinates of `a_i² − x_i²` — the asymmetric squared-difference-of-squares
formula — and this differs from the standard Euclidean distance
`sqrt (Σ (a_i − x_i)²)` at some input. -/
theorem euclid_is_sqrt_sum_sq_diff :
    (∀ (x a : ℕ) (m : Mat), (m x).length = (m a).length →
        euclid x a m =
          Real.sqrt (∑ i ∈ Finset.range (m x).length,
            (((m a).getD i 0 : ℝ) ^ 2 - ((m x).getD i 0 : ℝ) ^ 2))) ∧
    ∃ (x a : ℕ) (m : Mat), (m x).length = (m a).length ∧
      euclid x a m ≠
        Real.sqrt (∑ i ∈ Finset.range (m x).length,
          (((m a).getD i 0 : ℝ) - ((m x).getD i 0 : ℝ)) ^ 2) := by
  constructor
  · intro x a m h
    unfold euclid euclidRad
    rw [sum_zipWith_eq_finsetSum (fun ae xe : ℕ => (ae : ℤ) ^ 2 - (xe : ℤ) ^ 2)
      (m a) (m x) h.symm, h]
    congr 1
    push_cast
    rfl
  · refine ⟨0, 1, mAB, rfl, ?_⟩
    have h1 : euclid 0 1 mAB = Real.sqrt 3 := by
      unfold euclid
      norm_num [show euclidRad 0 1 mAB = 3 from rfl]
    have h2 : (∑ i ∈ Finset.range ((mAB 0).length),
        (((mAB 1).getD i 0 : ℝ) - ((mAB 0).getD i 0 : ℝ)) ^ 2) = 1 := by
      norm_num [show (mAB 0) = [1] from rfl, show (mAB 1) = [2] from rfl]
    rw [h1, h2, Real.sqrt_one]
    have h3 : Real.sqrt 1 < Real.sqrt 3 := Real.sqrt_lt_sqrt (by norm_num) (by norm_num)
    rw [Real.sqrt_one] at h3
    exact ne_of_gt h3

theorem euclid_is_sqrt_sum_sq_diff_witness :
    (mOne 0).length = (mOne 1).length ∧
      euclid 0 1 mOne =
        Real.sqrt (∑ i ∈ Finset.range ((mOne 0).length),
          (((mOne 1).getD i 0 : ℝ) ^ 2 - ((mOne 0).getD i 0 : ℝ) ^ 2)) :=
  ⟨rfl, euclid_is_sqrt_sum_sq_diff.1 0 1 mOne rfl⟩

/-- C7: with equal-length vectors and non-degenerate denominators, `jaccard`
and `cosine` are symmetric in their two document arguments. -/
theorem jaccard_cosine_symm :
    ∀ (x a : ℕ) (m : Mat), (m x).length = (m a).length →
      (List.zipWith Nat.lor (m x) (m a)).sum ≠ 0 →
      sumSq (m x) ≠ 0 → sumSq (m a) ≠ 0 →
      jaccard x a m = jaccard a x m ∧ cosine x a m = cosine a x m := by
  intro x a m _ _ _ _
  constructor
  · unfold jaccard
    rw [List.zipWith_comm_of_comm Nat.land Nat.land_comm (m x) (m a),
      List.zipWith_comm_of_comm Nat.lor Nat.lor_comm (m x) (m a)]
  · unfold cosine dotProd
    rw [List.zipWith_comm_of_comm _ Nat.mul_comm (m a) (m x),
      Nat.mul_comm (sumSq (m a)) (sumSq (m x))]

theorem jaccard_cosine_symm_witness :
    ((mAB 0).length = (mAB 1).length ∧
      (List.zipWith Nat.lor (mAB 0) (mAB 1)).sum ≠ 0 ∧
      sumSq (mAB 0) ≠ 0 ∧ sumSq (mAB 1) ≠ 0) ∧
    (jaccard 0 1 mAB = jaccard 1 0 mAB ∧ cosine 0 1 mAB = cosine 1 0 mAB) :=
  ⟨⟨rfl, by decide, by decide, by decide⟩,
    jaccard_cosine_symm 0 1 mAB rfl (by decide) (by decide) (by decide)⟩

/-- C2 counterexample: with candidates `[0, 0, 1]` and query `0` (which
occurs twice among the candidates) the ranked list has length 1, not
candidate count minus one = 2. -/
theorem compute_similarity_length_cex :
    compute_similarity 0 [0, 0, 1] mOne "jaccard" = .ok [(1, (1 : ℝ))] ∧
    (0 : ℕ) ∈ ([0, 0, 1] : List ℕ) ∧
    ¬ ([(1, (1 : ℝ))] : List (ℕ × ℝ)).length = ([0, 0, 1] : List ℕ).length - 1 := by
  refine ⟨?_, by simp, by simp⟩
  simp [compute_similarity, simFun, rawScores, pfilter, jac_mOne]

/-- C2 amended: with a recognized selector, the ranked list's length equals
the candidate count minus the number of occurrences of `x` among the
candidates (every occurrence of `x` is skipped); when `x` occurs at most
once this is the original count-minus-one / count dichotomy. -/
theorem compute_similarity_length :
    ∀ (x : ℕ) (docs : List ℕ) (m : Mat) (st : String),
      st = "jaccard" ∨ st = "euclid" ∨ st = "cosine" →
      Except.map List.length (compute_similarity x docs m st) =
        .ok (docs.length - docs.count x) := by
  intro x docs m st h
  have key : ∀ f : ℕ → ℕ → Mat → ℝ,
      (rawScores x docs m f).length = docs.length - docs.count x := by
    intro f
    rw [rawScores, List.length_map, length_pfilter_ne]
  rcases h with h | h | h <;> subst h <;>
    simp [compute_similarity, simFun, List.length_insertionSort, key, Except.map]

theorem compute_similarity_length_witness :
    ("jaccard" = "jaccard" ∨ "jaccard" = "euclid" ∨ "jaccard" = "cosine") ∧
    Except.map List.length (compute_similarity 0 [0, 1, 2] mOne "jaccard") =
      .ok 2 := by
  refine ⟨Or.inl rfl, ?_⟩
  rw [compute_similarity_length 0 [0, 1, 2] mOne "jaccard" (Or.inl rfl)]
  rfl

/-- C3: what the code actually does on an unrecognized selector: with any
candidate other than the query it fails with the `UnboundLocalError` of the
unbound `sim_fun` (not an InvalidArgument-kind error), and with no such
candidate it even succeeds with an empty ranked list. -/
theorem unknown_selector_unbound_local :
    compute_similarity 0 [1] mOne "manhattan" = .error .unboundLocalError ∧
    compute_similarity 0 [0] mOne "manhattan" = .ok [] ∧
    PyError.unboundLocalError ≠ PyError.invalidArgument := by
  refine ⟨?_, ?_, by decide⟩ <;> simp [compute_similarity, simFun, pfilter]

/-- C4 counterexample: at threshold `1/2`, `precision` on the empty output
collection surfaces the raw integer division-by-zero fault, not an
EmptyInputError-kind error. -/
theorem precision_empty_cex :
    precision ((1 : ℝ)/2) [] = .error .zeroDivisionError ∧
    precision ((1 : ℝ)/2) [] ≠ .error .emptyInputError := by
  refine ⟨rfl, ?_⟩
  rw [show precision ((1 : ℝ)/2) [] = .error .zeroDivisionError from rfl]
  simp

/-- C4 amended: for every threshold, `precision` on an empty output
collection propagates the raw arithmetic division-by-zero fault
(`len(req)/len(output)` with `len(output) = 0`). -/
theorem precision_empty_zeroDivision :
    ∀ t : ℝ, precision t [] = .error .zeroDivisionError := fun _ => rfl

/-- C5: whenever the recall denominator is zero — no corpus document other
than `x` scores at or above the threshold in the full-corpus ranking —
`recall` returns the tagged "not defined" result, a value distinct from
every numeric result. -/
theorem recall_zero_denominator_notDefined :
    ∀ (t : ℝ) (x size : ℕ) (out : List (ℕ × ℝ)) (m : Mat) (st : String)
      (docs : List (ℕ × ℝ)),
      compute_similarity x (List.range size) m st = .ok docs →
      pfilter (fun p => t ≤ p.2 ∧ p.1 ≠ x) docs = [] →
      recallMetric t x size out m st = .ok .notDefined ∧
        ∀ q : ℚ, (RecallRes.notDefined : RecallRes) ≠ .val q := by
  intro t x size out m st docs h hden
  refine ⟨?_, fun q hq => by cases hq⟩
  rw [recallMetric_ok h, hden]
  simp

theorem recall_zero_denominator_notDefined_witness :
    (compute_similarity 0 (List.range 1) mOne "jaccard" = .ok [] ∧
      pfilter (fun p => (1 : ℝ) ≤ p.2 ∧ p.1 ≠ 0) ([] : List (ℕ × ℝ)) = []) ∧
    (recallMetric 1 0 1 [] mOne "jaccard" = .ok .notDefined ∧
      ∀ q : ℚ, (RecallRes.notDefined : RecallRes) ≠ .val q) := by
  have h : compute_similarity 0 (List.range 1) mOne "jaccard" = .ok [] := by
    simp [compute_similarity, simFun, rawScores, pfilter]
  exact ⟨⟨h, rfl⟩,
    recall_zero_denominator_notDefined 1 0 1 [] mOne "jaccard" [] h rfl⟩

/-- C6: on a non-empty output, `precision` is the count of pairs whose score
is at least the threshold divided by the total count of pairs. -/
theorem precision_formula :
    ∀ (t : ℝ) (out : List (ℕ × ℝ)), out ≠ [] →
      precision t out =
        .ok (((pfilter (fun p => t ≤ p.2) out).length : ℚ) /
          (out.length : ℚ)) := by
  intro t out h
  rw [precision, if_neg fun h0 => h (List.length_eq_zero.mp h0)]

theorem precision_formula_witness :
    ([(1, (8 : ℝ)/10), (2, 3/10), (3, 6/10)] : List (ℕ × ℝ)) ≠ [] ∧
    precision ((1 : ℝ)/2) [(1, (8 : ℝ)/10), (2, 3/10), (3, 6/10)] =
      .ok (2/3) := by
  refine ⟨by simp, ?_⟩
  rw [precision_formula ((1 : ℝ)/2) [(1, (8 : ℝ)/10), (2, 3/10), (3, 6/10)]
    (by simp)]
  rw [pfilter_cons, if_pos (by norm_num), pfilter_cons, if_neg (by norm_num),
    pfilter_cons, if_pos (by norm_num), pfilter_nil]
  norm_num

/-- C8: with a recognized selector the ranked list is sorted by score —
descending for jaccard/cosine, ascending for euclid — and the sort is
stable: entries with equal scores appear in their original candidate
encounter order (the order of the pre-sort `ranked_list`). -/
theorem compute_similarity_sorted_stable :
    ∀ (x : ℕ) (docs : List ℕ) (m : Mat) (st : String),
      st = "jaccard" ∨ st = "euclid" ∨ st = "cosine" →
      ∃ (f : ℕ → ℕ → Mat → ℝ) (l : List (ℕ × ℝ)),
        simFun st = some f ∧ compute_similarity x docs m st = .ok l ∧
        List.Pairwise (scoreLE st) l ∧
        ∀ s : ℝ, pfilter (fun p => p.2 = s) l =
          pfilter (fun p => p.2 = s) (rawScores x docs m f) := by
  intro x docs m st h
  have hdesc : ∀ s : ℝ, ∀ a y : ℕ × ℝ, a.2 = s → y.2 = s → descLE a y := by
    intro s a y ha hy
    unfold descLE
    rw [ha, hy]
  have hasc : ∀ s : ℝ, ∀ a y : ℕ × ℝ, a.2 = s → y.2 = s → ascLE a y := by
    intro s a y ha hy
    unfold ascLE
    rw [ha, hy]
  rcases h with h | h | h <;> subst h
  · refine ⟨fun x a m => ((jaccard x a m : ℚ) : ℝ),
      List.insertionSort descLE
        (rawScores x docs m fun x a m => ((jaccard x a m : ℚ) : ℝ)),
      by simp [simFun], by simp [compute_similarity, simFun], ?_, ?_⟩
    · rw [show scoreLE "jaccard" = descLE from rfl]
      exact List.sorted_insertionSort descLE _
    · intro s
      exact pfilter_insertionSort descLE (fun p => p.2 = s)
        (fun a y => hdesc s a y) _
  · refine ⟨euclid, List.insertionSort ascLE (rawScores x docs m euclid),
      by simp [simFun], by simp [compute_similarity, simFun], ?_, ?_⟩
    · rw [show scoreLE "euclid" = ascLE from rfl]
      exact List.sorted_insertionSort ascLE _
    · intro s
      exact pfilter_insertionSort ascLE (fun p => p.2 = s)
        (fun a y => hasc s a y) _
  · refine ⟨cosine, List.insertionSort descLE (rawScores x docs m cosine),
      by simp [simFun], by simp [compute_similarity, simFun], ?_, ?_⟩
    · rw [show scoreLE "cosine" = descLE from rfl]
      exact List.sorted_insertionSort descLE _
    · intro s
      exact pfilter_insertionSort descLE (fun p => p.2 = s)
        (fun a y => hdesc s a y) _

theorem compute_similarity_sorted_stable_witness :
    ("jaccard" = "jaccard" ∨ "jaccard" = "euclid" ∨ "jaccard" = "cosine") ∧
    ∃ (f : ℕ → ℕ → Mat → ℝ) (l : List (ℕ × ℝ)),
      simFun "jaccard" = some f ∧
      compute_similarity 0 [0, 1] mOne "jaccard" = .ok l ∧
      List.Pairwise (scoreLE "jaccard") l ∧
      ∀ s : ℝ, pfilter (fun p => p.2 = s) l =
        pfilter (fun p => p.2 = s) (rawScores 0 [0, 1] mOne f) :=
  ⟨Or.inl rfl,
    compute_similarity_sorted_stable 0 [0, 1] mOne "jaccard" (Or.inl rfl)⟩

/-- Entries of the pre-sort ranked list never carry the query id. -/
theorem mem_rawScores_ne {x : ℕ} {docs : List ℕ} {m : Mat}
    {f : ℕ → ℕ → Mat → ℝ} {p : ℕ × ℝ} (hp : p ∈ rawScores x docs m f) :
    p.1 ≠ x := by
  rw [rawScores] at hp
  rcases List.mem_map.mp hp with ⟨i, hi, rfl⟩
  exact (mem_pfilter hi).2

/-- C9: with a recognized selector, no pair of the ranked list returned by
`compute_similarity` carries the query id itself. -/
theorem compute_similarity_excludes_query :
    ∀ (x : ℕ) (docs : List ℕ) (m : Mat) (st : String),
      st = "jaccard" ∨ st = "euclid" ∨ st = "cosine" →
      ∀ l, compute_similarity x docs m st = .ok l → ∀ p ∈ l, p.1 ≠ x := by
  intro x docs m st hst l hl p hp
  rcases hst with h | h | h <;> subst h <;>
    simp [compute_similarity, simFun] at hl <;>
    subst hl <;>
    exact mem_rawScores_ne ((List.mem_insertionSort _).mp hp)

theorem compute_similarity_excludes_query_witness :
    (("jaccard" = "jaccard" ∨ "jaccard" = "euclid" ∨ "jaccard" = "cosine") ∧
      compute_similarity 0 [0, 1] mOne "jaccard" = .ok [(1, (1 : ℝ))]) ∧
    ∀ p ∈ ([(1, (1 : ℝ))] : List (ℕ × ℝ)), p.1 ≠ 0 :=
  ⟨⟨Or.inl rfl, cs_eval_01⟩,
    compute_similarity_excludes_query 0 [0, 1] mOne "jaccard" (Or.inl rfl)
      [(1, (1 : ℝ))] cs_eval_01⟩

/-- C10: `recall` can return a value strictly greater than 1: the numerator
counts over the caller-supplied output with no validation, so an output with
more threshold-passing pairs than the corpus-wide relevant count (here a
duplicated retrieved pair) yields recall 2 on a 2-document corpus. -/
theorem recall_exceeds_one :
    recallMetric ((1 : ℝ)/2) 0 2 [(1, (1 : ℝ)), (1, 1)] mOne "jaccard" =
      .ok (.val 2) ∧ (1 : ℚ) < 2 := by
  refine ⟨?_, by norm_num⟩
  have h : compute_similarity 0 (List.range 2) mOne "jaccard" =
      .ok [(1, (1 : ℝ))] := by
    rw [show List.range 2 = [0, 1] from rfl]
    exact cs_eval_01
  have hden : pfilter (fun p => (1 : ℝ)/2 ≤ p.2 ∧ p.1 ≠ 0)
      [((1 : ℕ), (1 : ℝ))] = [((1 : ℕ), (1 : ℝ))] := by
    have hc : ((1 : ℝ)/2 ≤ ((1 : ℕ), (1 : ℝ)).2 ∧ ((1 : ℕ), (1 : ℝ)).1 ≠ 0) :=
      ⟨by norm_num, by decide⟩
    rw [pfilter_cons, if_pos hc, pfilter_nil]
  have hreq : pfilter (fun p => (1 : ℝ)/2 ≤ p.2)
      [((1 : ℕ), (1 : ℝ)), (1, 1)] = [((1 : ℕ), (1 : ℝ)), (1, 1)] := by
    have hr : ((1 : ℝ)/2 ≤ ((1 : ℕ), (1 : ℝ)).2) := by norm_num
    rw [pfilter_cons, if_pos hr, pfilter_cons, if_pos hr, pfilter_nil]
  rw [recallMetric_ok h, hden, hreq, if_neg (by simp)]
  norm_num

end LSHStat
